import Mathlib

/-!
Shallow embedding of the query-time orchestration and resilience layer of a
retrieval-augmented question answering pipeline, together with proofs about
its credential pool, retry loops, workflow strategies, context formatting,
combined-embedding arithmetic, chunk id assignment and configuration lookup.

Each definition mirrors one function of the source (src/config.py,
src/rag_chain.py, src/image_processor.py, src/graph_workflow.py,
src/vector_store.py); remote services are modelled as explicit stub
functions passed in as parameters, and fallible code returns Option or
Except values.
-/

set_option maxHeartbeats 1000000

namespace RAGSpec

/-! ## Credential pool (class APIKeyManager, src/config.py)

State: the list of api keys, the index of the current key, and the set of
indices marked failed.  The Python `failed_keys` is a set of integer
indices; we model it as a `Finset Nat`. -/

structure KeyManager where
  apiKeys : List String
  currentKeyIndex : Nat
  failedKeys : Finset Nat
deriving DecidableEq

/-- Constructor of APIKeyManager: starts at index 0 with no failed keys.
The Python constructor raises when the key list is empty; reachability
below therefore starts only from non-empty pools. -/
def initKeyManager (keys : List String) : KeyManager :=
  { apiKeys := keys, currentKeyIndex := 0, failedKeys := ∅ }

/-- APIKeyManager.get_current_key: when every key is marked failed, clear
the failure marks (after a brief pause, not modelled) and return the key at
the current index; otherwise return the key at the current index.  Returns
the post state together with the key. -/
def getCurrentKey (m : KeyManager) : KeyManager × String :=
  let m2 := if m.apiKeys.length ≤ m.failedKeys.card then
      { m with failedKeys := (∅ : Finset Nat) }
    else m
  (m2, m2.apiKeys.getD m2.currentKeyIndex "")

/-- APIKeyManager.mark_key_failed: add the current index to the failed set
and advance the current index round robin. -/
def markKeyFailed (m : KeyManager) : KeyManager :=
  { m with
    failedKeys := insert m.currentKeyIndex m.failedKeys,
    currentKeyIndex := (m.currentKeyIndex + 1) % m.apiKeys.length }

/-- APIKeyManager.get_available_keys_count. -/
def getAvailableKeysCount (m : KeyManager) : Nat :=
  m.apiKeys.length - m.failedKeys.card

/-- Pool states reachable from a freshly constructed manager by any
sequence of get_current_key and mark_key_failed calls. -/
inductive Reachable : KeyManager → Prop
  | init (keys : List String) : keys ≠ [] → Reachable (initKeyManager keys)
  | stepGet (m : KeyManager) : Reachable m → Reachable (getCurrentKey m).1
  | stepFail (m : KeyManager) : Reachable m → Reachable (markKeyFailed m)

/-- Structural invariant of reachable pool states: the pool is non-empty,
the current index is in range, failed indices are in range, and the failed
set is exactly the window of `card` indices that precede the current index
in cyclic order (equivalently: walking forward from the current index, the
failed indices are the last `card` positions of the cycle). -/
structure PoolInv (m : KeyManager) : Prop where
  nonempty : m.apiKeys ≠ []
  curLt : m.currentKeyIndex < m.apiKeys.length
  subset : m.failedKeys ⊆ Finset.range m.apiKeys.length
  window : ∀ j < m.apiKeys.length,
    ((m.currentKeyIndex + j) % m.apiKeys.length ∈ m.failedKeys ↔
      m.apiKeys.length - m.failedKeys.card ≤ j)

theorem PoolInv.posLen {m : KeyManager} (h : PoolInv m) : 0 < m.apiKeys.length :=
  List.length_pos.mpr h.nonempty

theorem PoolInv.cardLe {m : KeyManager} (h : PoolInv m) :
    m.failedKeys.card ≤ m.apiKeys.length := by
  have := Finset.card_le_card h.subset
  simpa using this

theorem PoolInv.cur_not_failed {m : KeyManager} (h : PoolInv m)
    (hk : m.failedKeys.card < m.apiKeys.length) :
    m.currentKeyIndex ∉ m.failedKeys := by
  have h0 := h.window 0 h.posLen
  rw [Nat.add_zero, Nat.mod_eq_of_lt h.curLt] at h0
  intro hc
  have := h0.mp hc
  omega

theorem PoolInv.all_failed {m : KeyManager} (h : PoolInv m)
    (hk : m.apiKeys.length ≤ m.failedKeys.card) :
    m.failedKeys = Finset.range m.apiKeys.length :=
  Finset.eq_of_subset_of_card_le h.subset (by simpa [Finset.card_range] using hk)

theorem poolInv_init (keys : List String) (hk : keys ≠ []) :
    PoolInv (initKeyManager keys) := by
  refine ⟨hk, List.length_pos.mpr hk, ?_, ?_⟩
  · simp [initKeyManager]
  · intro j hj
    simp only [initKeyManager] at hj ⊢
    simp
    omega

theorem poolInv_mark {m : KeyManager} (h : PoolInv m) : PoolInv (markKeyFailed m) := by
  have hpos := h.posLen
  refine ⟨h.nonempty, ?_, ?_, ?_⟩
  · exact Nat.mod_lt _ hpos
  · exact Finset.insert_subset (Finset.mem_range.mpr h.curLt) h.subset
  · intro j hj
    simp only [markKeyFailed] at hj ⊢
    rw [Nat.mod_add_mod]
    by_cases hk : m.failedKeys.card < m.apiKeys.length
    · have hc : m.currentKeyIndex ∉ m.failedKeys := h.cur_not_failed hk
      have hcard : (insert m.currentKeyIndex m.failedKeys).card = m.failedKeys.card + 1 :=
        Finset.card_insert_of_not_mem hc
      rw [hcard]
      by_cases hjN : j + 1 = m.apiKeys.length
      · have hmod : (m.currentKeyIndex + 1 + j) % m.apiKeys.length = m.currentKeyIndex := by
          have he : m.currentKeyIndex + 1 + j = m.currentKeyIndex + m.apiKeys.length := by
            omega
          rw [he, Nat.add_mod_right, Nat.mod_eq_of_lt h.curLt]
        rw [hmod]
        constructor
        · intro _
          omega
        · intro _
          exact Finset.mem_insert_self _ _
      · have hj1 : j + 1 < m.apiKeys.length := by omega
        have he : m.currentKeyIndex + 1 + j = m.currentKeyIndex + (j + 1) := by omega
        rw [he]
        have hne : (m.currentKeyIndex + (j + 1)) % m.apiKeys.length ≠ m.currentKeyIndex := by
          intro heq
          have hmodeq : (m.currentKeyIndex + (j + 1)) % m.apiKeys.length =
              (m.currentKeyIndex + 0) % m.apiKeys.length := by
            rw [heq, Nat.add_zero, Nat.mod_eq_of_lt h.curLt]
          have hcancel : (j + 1) % m.apiKeys.length = 0 % m.apiKeys.length :=
            Nat.ModEq.add_left_cancel' m.currentKeyIndex hmodeq
          rw [Nat.zero_mod, Nat.mod_eq_of_lt hj1] at hcancel
          omega
        rw [Finset.mem_insert]
        have hwin := h.window (j + 1) hj1
        constructor
        · intro hin
          rcases hin with heq | hin
          · exact absurd heq hne
          · have := hwin.mp hin
            omega
        · intro hle
          right
          exact hwin.mpr (by omega)
    · have hF := h.all_failed (by omega)
      have hins : insert m.currentKeyIndex m.failedKeys = m.failedKeys :=
        Finset.insert_eq_self.mpr (by rw [hF]; exact Finset.mem_range.mpr h.curLt)
      rw [hins, hF]
      simp [Finset.card_range]
      exact Nat.mod_lt _ hpos

theorem getCurrentKey_fst_of_lt {m : KeyManager}
    (hk : m.failedKeys.card < m.apiKeys.length) : (getCurrentKey m).1 = m := by
  simp [getCurrentKey, Nat.not_le.mpr hk]

theorem getCurrentKey_fst_of_ge {m : KeyManager}
    (hk : m.apiKeys.length ≤ m.failedKeys.card) :
    (getCurrentKey m).1 = { m with failedKeys := (∅ : Finset Nat) } := by
  simp [getCurrentKey, hk]

theorem poolInv_get {m : KeyManager} (h : PoolInv m) : PoolInv (getCurrentKey m).1 := by
  by_cases hk : m.failedKeys.card < m.apiKeys.length
  · rw [getCurrentKey_fst_of_lt hk]
    exact h
  · rw [getCurrentKey_fst_of_ge (by omega)]
    refine ⟨h.nonempty, h.curLt, ?_, ?_⟩
    · simp
    · intro j hj
      simp only at hj ⊢
      simp
      omega

theorem reachable_poolInv {m : KeyManager} (h : Reachable m) : PoolInv m := by
  induction h with
  | init keys hk => exact poolInv_init keys hk
  | stepGet m _ ih => exact poolInv_get ih
  | stepFail m _ ih => exact poolInv_mark ih

theorem mark_apiKeys (m : KeyManager) : (markKeyFailed m).apiKeys = m.apiKeys := rfl

theorem mark_card {m : KeyManager} (h : PoolInv m) :
    (markKeyFailed m).failedKeys.card =
      min (m.failedKeys.card + 1) m.apiKeys.length := by
  by_cases hk : m.failedKeys.card < m.apiKeys.length
  · have hc : m.currentKeyIndex ∉ m.failedKeys := h.cur_not_failed hk
    simp only [markKeyFailed]
    rw [Finset.card_insert_of_not_mem hc]
    omega
  · have hF := h.all_failed (by omega)
    have hle := h.cardLe
    simp only [markKeyFailed]
    rw [Finset.insert_eq_self.mpr (by rw [hF]; exact Finset.mem_range.mpr h.curLt)]
    omega

theorem iterate_mark_apiKeys (m : KeyManager) (n : Nat) :
    (markKeyFailed^[n] m).apiKeys = m.apiKeys := by
  induction n with
  | zero => rfl
  | succ n ih => rw [Function.iterate_succ_apply', mark_apiKeys, ih]

theorem iterate_mark_poolInv {m : KeyManager} (h : PoolInv m) (n : Nat) :
    PoolInv (markKeyFailed^[n] m) := by
  induction n with
  | zero => exact h
  | succ n ih => rw [Function.iterate_succ_apply']; exact poolInv_mark ih

theorem iterate_mark_card {m : KeyManager} (h : PoolInv m) (n : Nat) :
    (markKeyFailed^[n] m).failedKeys.card =
      min (m.failedKeys.card + n) m.apiKeys.length := by
  induction n with
  | zero =>
    have := h.cardLe
    simp
    omega
  | succ n ih =>
    rw [Function.iterate_succ_apply', mark_card (iterate_mark_poolInv h n),
      iterate_mark_apiKeys, ih]
    omega

theorem getD_mem_of_lt {l : List String} {i : Nat} (h : i < l.length) (d : String) :
    l.getD i d ∈ l := by
  rw [List.getD_eq_getElem?_getD, List.getElem?_eq_getElem h]
  exact List.getElem_mem h

/-- **C2.** From any reachable pool state of size N, after N consecutive
mark_key_failed calls the available-key count is 0, and the next
get_current_key call clears every failure mark (so all N keys are
available again) and returns one of the pool keys. -/
theorem pool_exhaust_then_reset (m : KeyManager) (hm : Reachable m) :
    getAvailableKeysCount (markKeyFailed^[m.apiKeys.length] m) = 0 ∧
    (getCurrentKey (markKeyFailed^[m.apiKeys.length] m)).1.failedKeys = ∅ ∧
    getAvailableKeysCount (getCurrentKey (markKeyFailed^[m.apiKeys.length] m)).1 =
      m.apiKeys.length ∧
    (getCurrentKey (markKeyFailed^[m.apiKeys.length] m)).2 ∈ m.apiKeys := by
  have h := reachable_poolInv hm
  set m2 := markKeyFailed^[m.apiKeys.length] m with hm2
  have hkeys : m2.apiKeys = m.apiKeys := iterate_mark_apiKeys m m.apiKeys.length
  have hcard : m2.failedKeys.card = m.apiKeys.length := by
    rw [hm2, iterate_mark_card h]
    omega
  have hge : m2.apiKeys.length ≤ m2.failedKeys.card := by
    rw [hcard, hkeys]
  have hinv : PoolInv m2 := iterate_mark_poolInv h m.apiKeys.length
  have hreset := getCurrentKey_fst_of_ge hge
  refine ⟨?_, ?_, ?_, ?_⟩
  · unfold getAvailableKeysCount
    rw [hcard, hkeys]
    omega
  · rw [hreset]
  · unfold getAvailableKeysCount
    rw [hreset]
    simp [hkeys]
  · show ((getCurrentKey m2).1.apiKeys.getD
      (getCurrentKey m2).1.currentKeyIndex "") ∈ m.apiKeys
    rw [hreset]
    simp only
    rw [hkeys]
    exact getD_mem_of_lt (by rw [← hkeys]; exact hinv.curLt) ""

/-- Witness for C2 on a concrete two-key pool. -/
theorem pool_exhaust_then_reset_witness :
    Reachable (initKeyManager ["a", "b"]) ∧
    (getAvailableKeysCount
        (markKeyFailed^[(initKeyManager ["a", "b"]).apiKeys.length]
          (initKeyManager ["a", "b"])) = 0 ∧
      (getCurrentKey
          (markKeyFailed^[(initKeyManager ["a", "b"]).apiKeys.length]
            (initKeyManager ["a", "b"]))).1.failedKeys = ∅ ∧
      getAvailableKeysCount
          (getCurrentKey
            (markKeyFailed^[(initKeyManager ["a", "b"]).apiKeys.length]
              (initKeyManager ["a", "b"]))).1 =
        (initKeyManager ["a", "b"]).apiKeys.length ∧
      (getCurrentKey
          (markKeyFailed^[(initKeyManager ["a", "b"]).apiKeys.length]
            (initKeyManager ["a", "b"]))).2 ∈ (initKeyManager ["a", "b"]).apiKeys) :=
  ⟨Reachable.init _ (by decide),
    pool_exhaust_then_reset _ (Reachable.init _ (by decide))⟩

/-- **C3.** In every reachable pool state, get_current_key returns the
credential at the post-state current index and that index is not marked
failed in the post state; when not all credentials are failed the call does
not reset anything and the pre-state current credential is unfailed, and
when all are failed the call clears the failure marks before returning. -/
theorem current_key_never_failed (m : KeyManager) (hm : Reachable m) :
    (getCurrentKey m).1.currentKeyIndex ∉ (getCurrentKey m).1.failedKeys ∧
    (getCurrentKey m).2 ∈ m.apiKeys ∧
    (m.failedKeys.card < m.apiKeys.length →
      (getCurrentKey m).1 = m ∧ m.currentKeyIndex ∉ m.failedKeys) ∧
    (m.apiKeys.length ≤ m.failedKeys.card →
      (getCurrentKey m).1.failedKeys = ∅) := by
  have h := reachable_poolInv hm
  by_cases hk : m.failedKeys.card < m.apiKeys.length
  · have hfst := getCurrentKey_fst_of_lt hk
    refine ⟨?_, ?_, fun _ => ⟨hfst, h.cur_not_failed hk⟩, fun hge => absurd hge (Nat.not_le.mpr hk)⟩
    · rw [hfst]
      exact h.cur_not_failed hk
    · show ((getCurrentKey m).1.apiKeys.getD (getCurrentKey m).1.currentKeyIndex "") ∈
        m.apiKeys
      rw [hfst]
      exact getD_mem_of_lt h.curLt ""
  · have hfst := @getCurrentKey_fst_of_ge m (by omega)
    refine ⟨?_, ?_, fun hlt => absurd hlt (by omega), fun _ => by rw [hfst]⟩
    · rw [hfst]
      simp
    · show ((getCurrentKey m).1.apiKeys.getD (getCurrentKey m).1.currentKeyIndex "") ∈
        m.apiKeys
      rw [hfst]
      simp only
      exact getD_mem_of_lt h.curLt ""

/-- Witness for C3 on a concrete pool in which one of three keys failed. -/
theorem current_key_never_failed_witness :
    Reachable (markKeyFailed (initKeyManager ["a", "b", "c"])) ∧
    ((getCurrentKey (markKeyFailed (initKeyManager ["a", "b", "c"]))).1.currentKeyIndex ∉
        (getCurrentKey (markKeyFailed (initKeyManager ["a", "b", "c"]))).1.failedKeys ∧
      (getCurrentKey (markKeyFailed (initKeyManager ["a", "b", "c"]))).2 ∈
        (markKeyFailed (initKeyManager ["a", "b", "c"])).apiKeys ∧
      ((markKeyFailed (initKeyManager ["a", "b", "c"])).failedKeys.card <
          (markKeyFailed (initKeyManager ["a", "b", "c"])).apiKeys.length →
        (getCurrentKey (markKeyFailed (initKeyManager ["a", "b", "c"]))).1 =
            markKeyFailed (initKeyManager ["a", "b", "c"]) ∧
          (markKeyFailed (initKeyManager ["a", "b", "c"])).currentKeyIndex ∉
            (markKeyFailed (initKeyManager ["a", "b", "c"])).failedKeys) ∧
      ((markKeyFailed (initKeyManager ["a", "b", "c"])).apiKeys.length ≤
          (markKeyFailed (initKeyManager ["a", "b", "c"])).failedKeys.card →
        (getCurrentKey (markKeyFailed (initKeyManager ["a", "b", "c"]))).1.failedKeys =
          ∅)) :=
  ⟨Reachable.stepFail _ (Reachable.init _ (by decide)),
    current_key_never_failed _ (Reachable.stepFail _ (Reachable.init _ (by decide)))⟩

/-! ## Remote-call stubs and retry loops
(ImageProcessor.generate_contextual_description, src/image_processor.py, and
RAGChain.generate_response, src/rag_chain.py)

A remote model call is modelled as a stub `call : Nat → CallResult` giving
the outcome of the attempt with that index: success with a response text, a
quota or rate-limit error (retryable), or any other error (not retried). -/

inductive CallResult where
  | success (text : String)
  | quotaError (msg : String)
  | otherError (msg : String)
deriving DecidableEq

/-- Python truthiness of an optional string: None and the empty string are
falsy. -/
def optStrTruthy : Option String → Bool
  | none => false
  | some s => !(s == "")

/-- Single quote character, used inside source message strings. -/
def apos : String := String.singleton (Char.ofNat 39)

/-- Python str.strip as used by generate_response: remove leading and
trailing whitespace characters. -/
def pyStrip (s : String) : String :=
  String.mk (((s.data.dropWhile Char.isWhitespace).reverse.dropWhile Char.isWhitespace).reverse)

def sentinelContext : String := "No specific document context available."

def insufficientMsg : String :=
  "I don" ++ apos ++ "t have enough information in my knowledge base to answer this question. Please make sure documents are properly ingested."

def exhaustedMsg : String := "All API keys exhausted. Please check your API key configuration."

/-- Loop body of ImageProcessor.generate_contextual_description: for each
attempt, fetch the current key (possibly resetting an exhausted pool), call
the vision model; on success tag the description with the page number or
the user-upload marker; on a quota error mark the key failed and retry; on
any other error return None.  The fuel argument is the number of attempts
remaining; when it runs out the function returns None (all keys
exhausted). -/
def genDescLoop (call : Nat → CallResult) (userQuery : Option String) (pageNum : Nat) :
    Nat → Nat → KeyManager → KeyManager × Option String
  | 0, _, m => (m, none)
  | fuel + 1, attempt, m =>
    let m1 := (getCurrentKey m).1
    match call attempt with
    | .success text =>
      (m1, some (if optStrTruthy userQuery then "[User Uploaded Image] " ++ text
        else "[Page " ++ toString pageNum ++ "] " ++ text))
    | .quotaError _ => genDescLoop call userQuery pageNum fuel (attempt + 1) (markKeyFailed m1)
    | .otherError _ => (m1, none)

/-- ImageProcessor.generate_contextual_description: the retry budget is
the size of the credential pool (`max_retries = len(api_keys)`). -/
def generateContextualDescription (call : Nat → CallResult) (userQuery : Option String)
    (pageNum : Nat) (m : KeyManager) : KeyManager × Option String :=
  genDescLoop call userQuery pageNum m.apiKeys.length 0 m

/-- Result of RAGChain.generate_response: final pool state, the returned
response string, and how many times the remote language model was
invoked. -/
structure GenResult where
  pool : KeyManager
  response : String
  llmCalls : Nat
deriving DecidableEq

/-- Loop body of RAGChain.generate_response.  Per attempt: when there is no
truthy uploaded image together with a truthy image description, an empty or
sentinel context short-circuits to the fixed insufficient-knowledge message
without calling the model; otherwise the model is invoked.  On success the
response is returned; on a quota error the current key is marked failed and
the client is re-initialized (a get_current_key call), then, if this was
the final attempt, the exhausted message is returned; on any other error an
error string is returned.  Fuel counts the remaining attempts of
`range(max_retries)`; an exhausted range yields the final fallthrough
message. -/
def genRespLoop (call : Nat → CallResult) (hasImage : Bool) (imageDescription : Option String)
    (context : String) : Nat → Nat → Nat → KeyManager → GenResult
  | 0, _, calls, m => ⟨m, "Failed to generate response after multiple attempts.", calls⟩
  | fuel + 1, attempt, calls, m =>
    if !(hasImage && optStrTruthy imageDescription) &&
        (pyStrip context == "" || context == sentinelContext) then
      ⟨m, insufficientMsg, calls⟩
    else
      match call attempt with
      | .success text => ⟨m, text, calls + 1⟩
      | .quotaError _ =>
        let m2 := (getCurrentKey (markKeyFailed m)).1
        if fuel = 0 then ⟨m2, exhaustedMsg, calls + 1⟩
        else genRespLoop call hasImage imageDescription context fuel (attempt + 1) (calls + 1) m2
      | .otherError msg => ⟨m, "Error generating response: " ++ msg, calls + 1⟩

/-- RAGChain.generate_response with its retry budget (default 3 in the
source).  The retrieval and context formatting are pure per attempt and are
passed in as the already formatted `context`. -/
def generateResponse (call : Nat → CallResult) (hasImage : Bool)
    (imageDescription : Option String) (context : String) (maxRetries : Nat)
    (m : KeyManager) : GenResult :=
  genRespLoop call hasImage imageDescription context maxRetries 0 0 m

/-- A stub that raises quota errors on the first `failures` attempts and
then succeeds with `text`. -/
def quotaThenSuccess (failures : Nat) (text : String) (attempt : Nat) : CallResult :=
  if attempt < failures then CallResult.quotaError "429 quota exceeded" else CallResult.success text

/-- Behaviour of the captioner retry loop under a stub that raises quota
errors on attempts `i, ..., M - 1` and succeeds on attempt `M`: starting at
attempt `i` with failed set `range i`, while enough fuel and keys remain
the loop ends successfully with exactly `M` failure marks. -/
theorem genDescLoop_quota_spec (keys : List String) (call : Nat → CallResult)
    (M : Nat) (s : String) (uq : Option String) (pg : Nat)
    (hq : ∀ i < M, ∃ e, call i = CallResult.quotaError e)
    (hs : call M = CallResult.success s) :
    ∀ fuel i, i ≤ M → M < i + fuel → i + fuel ≤ keys.length →
      genDescLoop call uq pg fuel i ⟨keys, i, Finset.range i⟩ =
        (⟨keys, M, Finset.range M⟩,
          some (if optStrTruthy uq then "[User Uploaded Image] " ++ s
            else "[Page " ++ toString pg ++ "] " ++ s)) := by
  intro fuel
  induction fuel with
  | zero => intro i h1 h2 h3; omega
  | succ fuel ih =>
    intro i h1 h2 h3
    have hlt : i < keys.length := by omega
    have hget : (getCurrentKey ⟨keys, i, Finset.range i⟩).1 = ⟨keys, i, Finset.range i⟩ :=
      getCurrentKey_fst_of_lt (by simpa [Finset.card_range] using hlt)
    rcases Nat.lt_or_ge i M with hiM | hiM
    · obtain ⟨e, he⟩ := hq i hiM
      have hi1 : i + 1 < keys.length := by omega
      have hmark : markKeyFailed ⟨keys, i, Finset.range i⟩ =
          ⟨keys, i + 1, Finset.range (i + 1)⟩ := by
        simp [markKeyFailed, Nat.mod_eq_of_lt hi1, Finset.range_succ]
      have := ih (i + 1) (by omega) (by omega) (by omega)
      simp only [genDescLoop, hget, he]
      rw [hmark]
      exact this
    · have hiM2 : i = M := by omega
      subst hiM2
      simp only [genDescLoop, hget, hs]

/-- Behaviour of the answer-generator retry loop under the same stub, when
the per-attempt guard actually reaches the model call (an image request
with a truthy description, or a usable context). -/
theorem genRespLoop_quota_spec (keys : List String) (call : Nat → CallResult)
    (M : Nat) (s : String) (hasImage : Bool) (imageDescription : Option String)
    (context : String)
    (hq : ∀ i < M, ∃ e, call i = CallResult.quotaError e)
    (hs : call M = CallResult.success s)
    (hMN : M < keys.length)
    (hguard : (hasImage && optStrTruthy imageDescription) = true ∨
      (pyStrip context ≠ "" ∧ context ≠ sentinelContext)) :
    ∀ fuel i calls, i ≤ M → M < i + fuel →
      genRespLoop call hasImage imageDescription context fuel i calls
          ⟨keys, i, Finset.range i⟩ =
        ⟨⟨keys, M, Finset.range M⟩, s, calls + (M - i) + 1⟩ := by
  have hcond : (!(hasImage && optStrTruthy imageDescription) &&
      (pyStrip context == "" || context == sentinelContext)) = false := by
    rcases hguard with h | h
    · simp [h]
    · simp [h.1, h.2]
  intro fuel
  induction fuel with
  | zero => intro i calls h1 h2; omega
  | succ fuel ih =>
    intro i calls h1 h2
    rcases Nat.lt_or_ge i M with hiM | hiM
    · obtain ⟨e, he⟩ := hq i hiM
      have hi1 : i + 1 < keys.length := by omega
      have hmark : markKeyFailed ⟨keys, i, Finset.range i⟩ =
          ⟨keys, i + 1, Finset.range (i + 1)⟩ := by
        simp [markKeyFailed, Nat.mod_eq_of_lt hi1, Finset.range_succ]
      have hget : (getCurrentKey ⟨keys, i + 1, Finset.range (i + 1)⟩).1 =
          ⟨keys, i + 1, Finset.range (i + 1)⟩ :=
        getCurrentKey_fst_of_lt (by simpa [Finset.card_range] using hi1)
      have hfuel : ¬ fuel = 0 := by omega
      have := ih (i + 1) (calls + 1) (by omega) (by omega)
      simp only [genRespLoop, hcond, he, Bool.false_eq_true, if_false]
      rw [hmark, hget]
      simp only [if_neg hfuel]
      rw [this]
      congr 1
      omega
    · have hiM2 : i = M := by omega
      subst hiM2
      simp only [genRespLoop, hcond, hs, Bool.false_eq_true, if_false]
      congr 1
      omega

/-- **C1 counterexample.**  Pool of size N = 4, a stub raising quota errors
exactly M = 3 < N times and then succeeding: the Image Captioner succeeds,
but the Answer Generator (whose retry budget is its `max_retries` argument,
3 by default, not `len(pool)`) returns the exhausted-keys error string
rather than a successful result. -/
theorem retry_policy_counterexample :
    (generateContextualDescription (quotaThenSuccess 3 "ok") none 1
        (initKeyManager ["k1", "k2", "k3", "k4"])).2 = some "[Page 1] ok" ∧
    (generateResponse (quotaThenSuccess 3 "ok") false none "Relevant context." 3
        (initKeyManager ["k1", "k2", "k3", "k4"])).response = exhaustedMsg ∧
    exhaustedMsg ≠ "ok" := by
  refine ⟨?_, ?_, by decide⟩
  · rfl
  · rfl

/-- **C1 amended.**  With a stub raising quota errors exactly M times then
succeeding: the Image Captioner succeeds whenever M < N (its retry budget
is `len(pool)`) and the pool records exactly M failures; the Answer
Generator retries only up to its `max_retries` parameter (default 3), so it
returns the successful result, with exactly M failures recorded, whenever
additionally M < max_retries and its guard reaches the model call. -/
theorem retry_policy_amended (keys : List String) (call : Nat → CallResult) (M : Nat)
    (s : String) (uq : Option String) (pg : Nat)
    (hasImage : Bool) (imageDescription : Option String) (context : String)
    (maxRetries : Nat)
    (hq : ∀ i < M, ∃ e, call i = CallResult.quotaError e)
    (hs : call M = CallResult.success s)
    (hMN : M < keys.length)
    (hMr : M < maxRetries)
    (hguard : (hasImage && optStrTruthy imageDescription) = true ∨
      (pyStrip context ≠ "" ∧ context ≠ sentinelContext)) :
    (generateContextualDescription call uq pg (initKeyManager keys)).2 =
        some (if optStrTruthy uq then "[User Uploaded Image] " ++ s
          else "[Page " ++ toString pg ++ "] " ++ s) ∧
    (generateContextualDescription call uq pg (initKeyManager keys)).1.failedKeys.card = M ∧
    (generateResponse call hasImage imageDescription context maxRetries
        (initKeyManager keys)).response = s ∧
    (generateResponse call hasImage imageDescription context maxRetries
        (initKeyManager keys)).pool.failedKeys.card = M := by
  have hinit : initKeyManager keys = ⟨keys, 0, Finset.range 0⟩ := by
    simp [initKeyManager]
  have h1 := genDescLoop_quota_spec keys call M s uq pg hq hs keys.length 0
    (by omega) (by omega) (by omega)
  have h2 := genRespLoop_quota_spec keys call M s hasImage imageDescription context
    hq hs hMN hguard maxRetries 0 0 (by omega) (by omega)
  unfold generateContextualDescription generateResponse
  rw [hinit]
  have hkeys : (⟨keys, 0, Finset.range 0⟩ : KeyManager).apiKeys = keys := rfl
  rw [hkeys, h1, h2]
  refine ⟨rfl, by simp [Finset.card_range], rfl, by simp [Finset.card_range]⟩

/-- Witness for C1 amended: two keys, one quota failure, then success. -/
theorem retry_policy_amended_witness :
    (∀ i < 1, ∃ e, quotaThenSuccess 1 "ok" i = CallResult.quotaError e) ∧
    quotaThenSuccess 1 "ok" 1 = CallResult.success "ok" ∧
    1 < (["k1", "k2"] : List String).length ∧
    1 < 3 ∧
    ((false && optStrTruthy none) = true ∨
      (pyStrip "Some context." ≠ "" ∧ "Some context." ≠ sentinelContext)) ∧
    ((generateContextualDescription (quotaThenSuccess 1 "ok") none 2
          (initKeyManager ["k1", "k2"])).2 =
        some (if optStrTruthy none then "[User Uploaded Image] " ++ "ok"
          else "[Page " ++ toString 2 ++ "] " ++ "ok") ∧
      (generateContextualDescription (quotaThenSuccess 1 "ok") none 2
          (initKeyManager ["k1", "k2"])).1.failedKeys.card = 1 ∧
      (generateResponse (quotaThenSuccess 1 "ok") false none "Some context." 3
          (initKeyManager ["k1", "k2"])).response = "ok" ∧
      (generateResponse (quotaThenSuccess 1 "ok") false none "Some context." 3
          (initKeyManager ["k1", "k2"])).pool.failedKeys.card = 1) := by
  have hq : ∀ i < 1, ∃ e, quotaThenSuccess 1 "ok" i = CallResult.quotaError e := by
    intro i hi
    refine ⟨"429 quota exceeded", ?_⟩
    have hi0 : i = 0 := by omega
    subst hi0
    rfl
  have hguard : ((false && optStrTruthy none) = true ∨
      (pyStrip "Some context." ≠ "" ∧ "Some context." ≠ sentinelContext)) :=
    Or.inr (by constructor <;> decide)
  exact ⟨hq, rfl, by decide, by decide, hguard,
    retry_policy_amended ["k1", "k2"] (quotaThenSuccess 1 "ok") 1 "ok" none 2
      false none "Some context." 3 hq rfl (by decide) (by decide) hguard⟩

/-- **C6.**  With no uploaded image, when the formatted context is empty
(after stripping) or equals the sentinel string, generate_response returns
the fixed insufficient-knowledge message, leaves the pool untouched, and
invokes the remote model zero times. -/
theorem short_circuit_without_context (call : Nat → CallResult)
    (imageDescription : Option String) (context : String) (maxRetries : Nat)
    (m : KeyManager) (hmr : 0 < maxRetries)
    (hctx : pyStrip context = "" ∨ context = sentinelContext) :
    generateResponse call false imageDescription context maxRetries m =
      ⟨m, insufficientMsg, 0⟩ := by
  obtain ⟨fuel, rfl⟩ : ∃ fuel, maxRetries = fuel + 1 := ⟨maxRetries - 1, by omega⟩
  have hcond : (!(false && optStrTruthy imageDescription) &&
      (pyStrip context == "" || context == sentinelContext)) = true := by
    rcases hctx with h | h <;> simp [h]
  unfold generateResponse
  simp only [genRespLoop, hcond, if_true]

/-- Witness for C6: empty context short-circuits on a one-key pool. -/
theorem short_circuit_without_context_witness :
    0 < 3 ∧ ((pyStrip " " = "" ∨ (" " : String) = sentinelContext) ∧
      generateResponse (quotaThenSuccess 0 "ok") false none " " 3
          (initKeyManager ["k1"]) =
        ⟨initKeyManager ["k1"], insufficientMsg, 0⟩) :=
  ⟨by decide, Or.inl (by decide),
    short_circuit_without_context (quotaThenSuccess 0 "ok") none " " 3
      (initKeyManager ["k1"]) (by decide) (Or.inl (by decide))⟩

/-! ## Workflow orchestrator (class RAGWorkflow, src/graph_workflow.py)

The rag chain is abstracted as a total generator function
`gen : question → hasImage → imageDescription → response`; the image
processor call (process_uploaded_image) is abstracted as its outcome for
the request: a returned caption (possibly empty), a returned None, or a
raised exception.  The analyze_query node only computes an advisory
has_image flag that no later node reads, so it does not appear in the
response computation. -/

inductive CapOutcome where
  | ok (caption : String)
  | returnedNone
  | raised (err : String)
deriving DecidableEq

/-- RAGWorkflow._process_image_node: produces the image_description state
field and the recorded error, if any.  A falsy caption (None or the empty
string) becomes the placeholder text; an exception becomes an error marker
and sets the error field. -/
def processImageNode (hasImage hasProcessor : Bool) (capt : CapOutcome) :
    String × Option String :=
  if hasImage && hasProcessor then
    match capt with
    | .ok caption =>
      if caption ≠ "" then (caption, none)
      else ("Image analysis returned no results", none)
    | .returnedNone => ("Image analysis returned no results", none)
    | .raised err => ("Error processing image: " ++ err, some err)
  else ("", none)

/-- One invocation of the compiled LangGraph workflow:
analyze_query → process_image → generate_response.  Returns the response
and the recorded error field.  The generate node always passes the
image_description state string (never None). -/
def graphInvoke (gen : String → Bool → Option String → String)
    (capt : CapOutcome) (question : String) (hasImage hasProcessor : Bool) :
    String × Option String :=
  let pr := processImageNode hasImage hasProcessor capt
  (gen question hasImage (some pr.1), pr.2)

/-- RAGWorkflow._run_simple_workflow: caption (with different placeholder
strings for the empty and error cases), then generate.  With no image or no
processor the generator receives None. -/
def runSimpleWorkflow (gen : String → Bool → Option String → String)
    (capt : CapOutcome) (question : String) (hasImage hasProcessor : Bool) : String :=
  let imageDescription : Option String :=
    if hasImage && hasProcessor then
      match capt with
      | .ok caption =>
        if caption ≠ "" then some caption else some "Image uploaded for analysis"
      | .returnedNone => some "Image uploaded for analysis"
      | .raised _ => some "Image processing encountered an error"
    else none
  gen question hasImage imageDescription

/-- Strategy-selection state of a RAGWorkflow instance. -/
structure Workflow where
  useLanggraph : Bool
  hasWorkflow : Bool
deriving DecidableEq

/-- RAGWorkflow.run: prefer the graph strategy when enabled; if invoking it
raises (stubbed by `graphRaises`), permanently clear use_langgraph and fall
through to the simple workflow; if it records an error in state, fall back
to the simple workflow for this request only; otherwise return its
response. -/
def runWorkflow (gen : String → Bool → Option String → String)
    (capt : CapOutcome) (question : String) (hasImage hasProcessor : Bool)
    (graphRaises : Bool) (w : Workflow) : Workflow × String :=
  if w.useLanggraph && w.hasWorkflow then
    if graphRaises then
      ({ w with useLanggraph := false },
        runSimpleWorkflow gen capt question hasImage hasProcessor)
    else
      let r := graphInvoke gen capt question hasImage hasProcessor
      match r.2 with
      | some _ => (w, runSimpleWorkflow gen capt question hasImage hasProcessor)
      | none => (w, r.1)
  else (w, runSimpleWorkflow gen capt question hasImage hasProcessor)

/-- A generator stub that distinguishes the two caption placeholders while
treating the two Python-falsy descriptions (None and the empty string)
identically, as the real generate_response does. -/
def genEcho : String → Bool → Option String → String :=
  fun _ _ d =>
    match d with
    | none => "NO CAPTION"
    | some s => if s = "" then "NO CAPTION" else s

/-- **C4 counterexample.**  When the captioner returns an empty caption,
the graph strategy hands the generator the placeholder
"Image analysis returned no results" while the linear strategy hands it
"Image uploaded for analysis", so the two strategies produce different
response strings for the same request. -/
theorem strategies_differ_on_empty_caption :
    (runWorkflow genEcho CapOutcome.returnedNone "q" true true false
        ⟨true, true⟩).2 = "Image analysis returned no results" ∧
    runSimpleWorkflow genEcho CapOutcome.returnedNone "q" true true =
      "Image uploaded for analysis" ∧
    ("Image analysis returned no results" : String) ≠ "Image uploaded for analysis" := by
  refine ⟨rfl, rfl, by decide⟩

/-- **C4 amended.**  For every generator that identifies the two
Python-falsy descriptions (as the real generate_response does), the graph
strategy and the linear strategy agree whenever there is no image to
process, or the captioner returns a non-empty caption, or the captioner
raises; only the empty/None-caption case feeds the two strategies different
placeholder descriptions and may change the response. -/
theorem strategies_agree_amended (gen : String → Bool → Option String → String)
    (capt : CapOutcome) (question : String) (hasImage hasProcessor : Bool)
    (hfalsy : ∀ q hi, gen q hi (some "") = gen q hi none)
    (hcase : (hasImage && hasProcessor) = false ∨
      (∃ c, capt = CapOutcome.ok c ∧ c ≠ "") ∨ (∃ e, capt = CapOutcome.raised e)) :
    (runWorkflow gen capt question hasImage hasProcessor false ⟨true, true⟩).2 =
      runSimpleWorkflow gen capt question hasImage hasProcessor := by
  rcases hcase with hno | ⟨c, hc, hne⟩ | ⟨e, he⟩
  · simp [runWorkflow, graphInvoke, processImageNode, runSimpleWorkflow, hno, hfalsy]
  · subst hc
    cases hip : (hasImage && hasProcessor) with
    | true =>
      simp [runWorkflow, graphInvoke, processImageNode, runSimpleWorkflow, hip, hne]
    | false =>
      simp [runWorkflow, graphInvoke, processImageNode, runSimpleWorkflow, hip, hfalsy]
  · subst he
    cases hip : (hasImage && hasProcessor) with
    | true =>
      simp [runWorkflow, graphInvoke, processImageNode, runSimpleWorkflow, hip]
    | false =>
      simp [runWorkflow, graphInvoke, processImageNode, runSimpleWorkflow, hip, hfalsy]

/-- Witness for C4 amended: a raising captioner on an image request. -/
theorem strategies_agree_amended_witness :
    (∀ q hi, genEcho q hi (some "") = genEcho q hi none) ∧
    (((true && true) = false) ∨
      (∃ c, CapOutcome.raised "boom" = CapOutcome.ok c ∧ c ≠ "") ∨
      (∃ e, CapOutcome.raised "boom" = CapOutcome.raised e)) ∧
    (runWorkflow genEcho (CapOutcome.raised "boom") "q" true true false
        ⟨true, true⟩).2 =
      runSimpleWorkflow genEcho (CapOutcome.raised "boom") "q" true true := by
  have hfalsy : ∀ q hi, genEcho q hi (some "") = genEcho q hi none := by
    intro q hi
    rfl
  have hcase : (((true && true) = false) ∨
      (∃ c, CapOutcome.raised "boom" = CapOutcome.ok c ∧ c ≠ "") ∨
      (∃ e, CapOutcome.raised "boom" = CapOutcome.raised e)) :=
    Or.inr (Or.inr ⟨"boom", rfl⟩)
  exact ⟨hfalsy, hcase,
    strategies_agree_amended genEcho (CapOutcome.raised "boom") "q" true true
      hfalsy hcase⟩

/-- **C5.**  If invoking the graph strategy raises, run() returns exactly
the linear-strategy result for that request, disables the graph strategy,
and every later run() call (with any request and any behaviour of the
graph stub) goes straight to the linear strategy and leaves the graph
disabled. -/
theorem graph_failure_fallback (gen : String → Bool → Option String → String)
    (capt : CapOutcome) (question : String) (hasImage hasProcessor : Bool)
    (gen2 : String → Bool → Option String → String) (capt2 : CapOutcome)
    (question2 : String) (hasImage2 hasProcessor2 graphRaises2 : Bool) :
    (runWorkflow gen capt question hasImage hasProcessor true ⟨true, true⟩).2 =
      runSimpleWorkflow gen capt question hasImage hasProcessor ∧
    (runWorkflow gen capt question hasImage hasProcessor true
        ⟨true, true⟩).1.useLanggraph = false ∧
    runWorkflow gen2 capt2 question2 hasImage2 hasProcessor2 graphRaises2
        (runWorkflow gen capt question hasImage hasProcessor true ⟨true, true⟩).1 =
      ((runWorkflow gen capt question hasImage hasProcessor true ⟨true, true⟩).1,
        runSimpleWorkflow gen2 capt2 question2 hasImage2 hasProcessor2) := by
  refine ⟨rfl, rfl, rfl⟩

/-! ## Context formatting (RAGChain._format_context, src/rag_chain.py)

A query-result dictionary is modelled with explicit optional fields:
`none` stands for an absent dictionary key.  Chroma returns per-query
nested lists, so `documents` is a list of hit lists (the code only reads
entry 0), and metadata entries carry optional source and page fields (the
page already rendered to text, as the f-string would).  Reading `metas[0]`
when the metadatas value is the present-but-empty list raises in Python, so
the formatter returns an `Except`. -/

structure HitMeta where
  source : Option String
  page : Option String
deriving DecidableEq

structure ChannelResults where
  documents : Option (List (List String))
  metadatas : Option (List (List HitMeta))
deriving DecidableEq

structure QueryResults where
  textResults : Option ChannelResults
  imageResults : Option ChannelResults
deriving DecidableEq

/-- Truthiness of `query_results.get(key, {}).get('documents')`. -/
def channelTruthy (c : Option ChannelResults) : Bool :=
  match c with
  | none => false
  | some cr =>
    match cr.documents with
    | none => false
    | some ds => !ds.isEmpty

def textMarker : String := "=== TEXT CONTENT ==="

def imageMarker : String := "\n=== VISUAL CONTENT (Charts, Diagrams, Tables) ==="

/-- The `[Source: ...]` attribution of one text hit. -/
def sourceAttr (meta : HitMeta) : String :=
  "[Source: " ++ meta.source.getD "Unknown" ++ "]"

/-- The `[Visual from ..., Page ...]` attribution of one image hit. -/
def visualAttr (meta : HitMeta) : String :=
  "[Visual from " ++ meta.source.getD "Unknown" ++ ", Page " ++ meta.page.getD "Unknown" ++ "]"

/-- One appended list element for a text hit. -/
def textEntry (doc : String) (meta : HitMeta) : String :=
  "\n" ++ sourceAttr meta ++ "\n" ++ doc ++ "\n"

/-- One appended list element for an image hit. -/
def imageEntry (doc : String) (meta : HitMeta) : String :=
  "\n" ++ visualAttr meta ++ "\n" ++ doc ++ "\n"

/-- The context_parts contributions of one channel: nothing when the
documents entry is falsy; the marker alone when the first hit list is
empty; otherwise the marker followed by one entry per zipped (document,
metadata) pair — where evaluating `metas[0]` on a present-but-empty
metadatas list raises an IndexError. -/
def channelParts (entry : String → HitMeta → String) (marker : String)
    (c : Option ChannelResults) : Except String (List String) :=
  match c with
  | none => Except.ok []
  | some cr =>
    match cr.documents with
    | none => Except.ok []
    | some [] => Except.ok []
    | some (d0 :: _) =>
      if d0.isEmpty then Except.ok [marker]
      else
        match cr.metadatas.getD [[]] with
        | [] => Except.error "IndexError: list index out of range"
        | m0 :: _ => Except.ok (marker :: (d0.zip m0).map (fun p => entry p.1 p.2))

/-- Python str.join with separator newline. -/
def joinParts : List String → String
  | [] => ""
  | [p] => p
  | p :: q :: ps => p ++ "\n" ++ joinParts (q :: ps)

/-- RAGChain._format_context. -/
def formatContext (qr : QueryResults) : Except String String := do
  let tparts ← channelParts textEntry textMarker qr.textResults
  let iparts ← channelParts imageEntry imageMarker qr.imageResults
  let parts := tparts ++ iparts
  pure (if parts.isEmpty then sentinelContext else joinParts parts)

/-- `pat` occurs verbatim inside `s`. -/
def strContains (s pat : String) : Prop := ∃ a b, s = a ++ (pat ++ b)

theorem strContains_of_append_left {t pat : String} (s : String)
    (h : strContains t pat) : strContains (s ++ t) pat := by
  obtain ⟨a, b, rfl⟩ := h
  exact ⟨s ++ a, b, by rw [String.append_assoc]⟩

theorem joinParts_cons (p : String) (ps : List String) :
    ∃ t, joinParts (p :: ps) = p ++ t := by
  cases ps with
  | nil => exact ⟨"", by simp [joinParts]⟩
  | cons q qs => exact ⟨"\n" ++ joinParts (q :: qs), by simp [joinParts, String.append_assoc]⟩

theorem joinParts_mem {parts : List String} {p : String} (hp : p ∈ parts) :
    strContains (joinParts parts) p := by
  induction parts with
  | nil => cases hp
  | cons q ps ih =>
    rcases List.mem_cons.mp hp with rfl | hp2
    · obtain ⟨t, ht⟩ := joinParts_cons p ps
      exact ⟨"", t, by rw [ht, String.empty_append]⟩
    · cases ps with
      | nil => cases hp2
      | cons r rs =>
        have hjoin : joinParts (q :: r :: rs) = q ++ "\n" ++ joinParts (r :: rs) := rfl
        rw [hjoin]
        exact strContains_of_append_left _ (ih hp2)

theorem head_ne_imp_append_ne {a b : String} (t : String)
    (hne : a.data.head? ≠ b.data.head?) (hsome : a.data.head?.isSome) :
    a ++ t ≠ b := by
  intro he
  apply hne
  rw [← he]
  rw [String.data_append]
  cases hx : a.data with
  | nil => rw [hx] at hsome; simp at hsome
  | cons c cs => rfl

theorem strContains_trans {s t u : String} (h1 : strContains s t)
    (h2 : strContains t u) : strContains s u := by
  obtain ⟨a, b, rfl⟩ := h1
  obtain ⟨c, d, rfl⟩ := h2
  exact ⟨a ++ c, d ++ b, by simp [String.append_assoc]⟩

theorem channelParts_falsy (entry : String → HitMeta → String) (marker : String)
    {c : Option ChannelResults} (h : channelTruthy c = false) :
    channelParts entry marker c = Except.ok [] := by
  cases c with
  | none => rfl
  | some cr =>
    cases hd : cr.documents with
    | none => simp [channelParts, hd]
    | some ds =>
      cases ds with
      | nil => simp [channelParts, hd]
      | cons d0 dsr => simp [channelTruthy, hd] at h

theorem channelParts_truthy_shape (entry : String → HitMeta → String) (marker : String)
    {c : Option ChannelResults} {ps : List String}
    (ht : channelTruthy c = true)
    (h : channelParts entry marker c = Except.ok ps) :
    ∃ rest, ps = marker :: rest := by
  cases c with
  | none => simp [channelTruthy] at ht
  | some cr =>
    cases hd : cr.documents with
    | none => simp [channelTruthy, hd] at ht
    | some ds =>
      cases ds with
      | nil => simp [channelTruthy, hd] at ht
      | cons d0 dsr =>
        by_cases hde : d0.isEmpty
        · simp [channelParts, hd, hde] at h
          exact ⟨[], h.symm⟩
        · cases hm : cr.metadatas.getD [[]] with
          | nil => simp [channelParts, hd, hde, hm] at h
          | cons m0 msr =>
            simp [channelParts, hd, hde, hm] at h
            exact ⟨(d0.zip m0).map (fun p => entry p.1 p.2), h.symm⟩

theorem formatContext_eq {qr : QueryResults} {tps ips : List String}
    (ht : channelParts textEntry textMarker qr.textResults = Except.ok tps)
    (hi : channelParts imageEntry imageMarker qr.imageResults = Except.ok ips) :
    formatContext qr =
      Except.ok (if (tps ++ ips).isEmpty then sentinelContext
        else joinParts (tps ++ ips)) := by
  unfold formatContext
  rw [ht, hi]
  rfl

theorem textMarker_append_ne_sentinel (t : String) :
    textMarker ++ t ≠ sentinelContext :=
  head_ne_imp_append_ne t (by decide) (by decide)

theorem imageMarker_append_ne_sentinel (t : String) :
    imageMarker ++ t ≠ sentinelContext :=
  head_ne_imp_append_ne t (by decide) (by decide)

theorem textEntry_contains_attr (doc : String) (meta : HitMeta) :
    strContains (textEntry doc meta) (sourceAttr meta) :=
  ⟨"\n", "\n" ++ doc ++ "\n", by simp [textEntry, String.append_assoc]⟩

theorem imageEntry_contains_attr (doc : String) (meta : HitMeta) :
    strContains (imageEntry doc meta) (visualAttr meta) :=
  ⟨"\n", "\n" ++ doc ++ "\n", by simp [imageEntry, String.append_assoc]⟩

/-- A query-result with a documents key present on the text channel but
zero hits inside it: no hit is rendered, yet the formatter returns the bare
TEXT CONTENT marker rather than the sentinel string. -/
def emptyHitsQR : QueryResults :=
  { textResults := some { documents := some [[]], metadatas := some [[]] },
    imageResults := none }

/-- **C7 counterexample.**  A no-hit QueryResult (its only hit list is
empty) does not map to the sentinel: _format_context keys the sentinel on
dictionary truthiness of the documents entry, not on hit emptiness. -/
theorem format_context_counterexample :
    formatContext emptyHitsQR = Except.ok textMarker ∧
    (∀ hits ∈ ([[]] : List (List String)), hits = []) ∧
    textMarker ≠ sentinelContext := by
  refine ⟨rfl, ?_, by decide⟩
  intro hits hh
  simpa using hh

/-- **C7 amended.**  When neither channel raises (its parts computation
succeeds): the formatter returns the sentinel exactly when the documents
entry of both channels is Python-falsy (absent or the empty list) — a
present documents entry whose only hit list is empty still yields a bare
section marker; and whenever a channel has actual hits with a non-empty
metadata row, the output contains that channel's section marker and every
zipped hit's source attribution verbatim. -/
theorem format_context_amended (qr : QueryResults) (tps ips : List String)
    (ht : channelParts textEntry textMarker qr.textResults = Except.ok tps)
    (hi : channelParts imageEntry imageMarker qr.imageResults = Except.ok ips) :
    (formatContext qr = Except.ok sentinelContext ↔
      channelTruthy qr.textResults = false ∧ channelTruthy qr.imageResults = false) ∧
    (∀ cr d0 ds m0 ms, qr.textResults = some cr → cr.documents = some (d0 :: ds) →
      d0.isEmpty = false → cr.metadatas = some (m0 :: ms) →
      ∃ out, formatContext qr = Except.ok out ∧ strContains out textMarker ∧
        ∀ p ∈ d0.zip m0, strContains out (sourceAttr p.2)) ∧
    (∀ cr d0 ds m0 ms, qr.imageResults = some cr → cr.documents = some (d0 :: ds) →
      d0.isEmpty = false → cr.metadatas = some (m0 :: ms) →
      ∃ out, formatContext qr = Except.ok out ∧ strContains out imageMarker ∧
        ∀ p ∈ d0.zip m0, strContains out (visualAttr p.2)) := by
  have hfmt := formatContext_eq ht hi
  refine ⟨⟨?_, ?_⟩, ?_, ?_⟩
  · intro hok
    by_cases htt : channelTruthy qr.textResults = true
    · exfalso
      obtain ⟨rest, hrest⟩ := channelParts_truthy_shape textEntry textMarker htt ht
      subst hrest
      rw [hfmt] at hok
      have hj : joinParts ((textMarker :: rest) ++ ips) = sentinelContext := by
        simpa using hok
      rw [List.cons_append] at hj
      obtain ⟨t, htj⟩ := joinParts_cons textMarker (rest ++ ips)
      rw [htj] at hj
      exact textMarker_append_ne_sentinel t hj
    · have htf : channelTruthy qr.textResults = false := by
        revert htt
        cases channelTruthy qr.textResults <;> simp
      by_cases hit : channelTruthy qr.imageResults = true
      · exfalso
        have htps : tps = [] := by
          have := (channelParts_falsy textEntry textMarker htf).symm.trans ht
          simpa using this.symm
        obtain ⟨rest, hrest⟩ := channelParts_truthy_shape imageEntry imageMarker hit hi
        subst hrest htps
        rw [hfmt] at hok
        have hj : joinParts (imageMarker :: rest) = sentinelContext := by
          simpa using hok
        obtain ⟨t, htj⟩ := joinParts_cons imageMarker rest
        rw [htj] at hj
        exact imageMarker_append_ne_sentinel t hj
      · have hif : channelTruthy qr.imageResults = false := by
          revert hit
          cases channelTruthy qr.imageResults <;> simp
        exact ⟨htf, hif⟩
  · rintro ⟨htf, hif⟩
    have htps : tps = [] := by
      have := (channelParts_falsy textEntry textMarker htf).symm.trans ht
      simpa using this.symm
    have hips : ips = [] := by
      have := (channelParts_falsy imageEntry imageMarker hif).symm.trans hi
      simpa using this.symm
    subst htps hips
    simpa using hfmt
  · intro cr d0 ds m0 ms hqr hdoc hde hmeta
    have hch : channelParts textEntry textMarker qr.textResults =
        Except.ok (textMarker :: (d0.zip m0).map (fun p => textEntry p.1 p.2)) := by
      rw [hqr]
      simp [channelParts, hdoc, hde, hmeta]
    have htps : tps = textMarker :: (d0.zip m0).map (fun p => textEntry p.1 p.2) := by
      have := hch.symm.trans ht
      simpa using this.symm
    subst htps
    refine ⟨joinParts ((textMarker :: (d0.zip m0).map (fun p => textEntry p.1 p.2)) ++ ips),
      by simpa using hfmt, ?_, ?_⟩
    · exact joinParts_mem (by simp)
    · intro p hp
      refine strContains_trans (joinParts_mem ?_) (textEntry_contains_attr p.1 p.2)
      rw [List.cons_append]
      exact List.mem_cons_of_mem _ (List.mem_append_left _ (List.mem_map_of_mem _ hp))
  · intro cr d0 ds m0 ms hqr hdoc hde hmeta
    have hch : channelParts imageEntry imageMarker qr.imageResults =
        Except.ok (imageMarker :: (d0.zip m0).map (fun p => imageEntry p.1 p.2)) := by
      rw [hqr]
      simp [channelParts, hdoc, hde, hmeta]
    have hips : ips = imageMarker :: (d0.zip m0).map (fun p => imageEntry p.1 p.2) := by
      have := hch.symm.trans hi
      simpa using this.symm
    subst hips
    refine ⟨joinParts (tps ++ imageMarker :: (d0.zip m0).map (fun p => imageEntry p.1 p.2)),
      by simpa using hfmt, ?_, ?_⟩
    · exact joinParts_mem (by simp)
    · intro p hp
      refine strContains_trans (joinParts_mem ?_) (imageEntry_contains_attr p.1 p.2)
      exact List.mem_append_right _ (List.mem_cons_of_mem _ (List.mem_map_of_mem _ hp))

/-- Concrete query-result with one text hit and one image hit. -/
def sampleQR : QueryResults :=
  { textResults := some
      { documents := some [["alpha"]],
        metadatas := some [[{ source := some "doc.pdf", page := none }]] },
    imageResults := some
      { documents := some [["vis"]],
        metadatas := some [[{ source := some "doc.pdf", page := some "2" }]] } }

/-- Witness for C7 amended on `sampleQR`. -/
theorem format_context_amended_witness :
    channelParts textEntry textMarker sampleQR.textResults =
      Except.ok [textMarker, textEntry "alpha" { source := some "doc.pdf", page := none }] ∧
    channelParts imageEntry imageMarker sampleQR.imageResults =
      Except.ok [imageMarker, imageEntry "vis" { source := some "doc.pdf", page := some "2" }] ∧
    ((formatContext sampleQR = Except.ok sentinelContext ↔
        channelTruthy sampleQR.textResults = false ∧
          channelTruthy sampleQR.imageResults = false) ∧
      (∀ cr d0 ds m0 ms, sampleQR.textResults = some cr →
        cr.documents = some (d0 :: ds) → d0.isEmpty = false →
        cr.metadatas = some (m0 :: ms) →
        ∃ out, formatContext sampleQR = Except.ok out ∧ strContains out textMarker ∧
          ∀ p ∈ d0.zip m0, strContains out (sourceAttr p.2)) ∧
      (∀ cr d0 ds m0 ms, sampleQR.imageResults = some cr →
        cr.documents = some (d0 :: ds) → d0.isEmpty = false →
        cr.metadatas = some (m0 :: ms) →
        ∃ out, formatContext sampleQR = Except.ok out ∧ strContains out imageMarker ∧
          ∀ p ∈ d0.zip m0, strContains out (visualAttr p.2))) :=
  ⟨rfl, rfl, format_context_amended sampleQR _ _ rfl rfl⟩

/-! ## Combined multimodal query
(VectorStore.query_with_uploaded_image, src/vector_store.py)

Embedding vectors are modelled as lists of rationals; embedding calls that
can fail yield Option values, and a `some []` value is Python-falsy just
like None. -/

/-- `(np.array(text) + np.array(image)) / 2`: element-wise sum then scalar
division by two. -/
def combinedEmbedding (textEmbedding imageEmbedding : List ℚ) : List ℚ :=
  (List.zipWith (· + ·) textEmbedding imageEmbedding).map (· / 2)

/-- The element-wise average as the spec words it, for comparison with the
source computation. -/
def elementwiseAverage (v w : List ℚ) : List ℚ :=
  List.zipWith (fun a b => (a + b) / 2) v w

/-- The query vector built by VectorStore.query_with_uploaded_image: when
either sub-embedding is falsy (failed or empty) the whole combined query is
abandoned; otherwise both collections are searched with the combined
vector. -/
def queryVectorWithUploadedImage (textEmbedding imageEmbedding : Option (List ℚ)) :
    Option (List ℚ) :=
  match textEmbedding, imageEmbedding with
  | some tv, some iv =>
    if tv.isEmpty || iv.isEmpty then none
    else some (combinedEmbedding tv iv)
  | _, _ => none

theorem combined_eq_average (v w : List ℚ) :
    combinedEmbedding v w = elementwiseAverage v w := by
  unfold combinedEmbedding elementwiseAverage
  induction v generalizing w with
  | nil => simp
  | cons a as ih =>
    cases w with
    | nil => simp
    | cons b bs => simp [ih]

theorem combined_self (v : List ℚ) : combinedEmbedding v v = v := by
  induction v with
  | nil => rfl
  | cons a as ih =>
    have ha : (a + a) / 2 = a := by ring
    show (a + a) / 2 :: combinedEmbedding as as = a :: as
    rw [ha, ih]

/-- **C8.**  When both sub-embeddings succeed (and are non-empty, hence
truthy), the combined query vector is exactly the element-wise average of
the text and image vectors, and averaging two identical vectors returns
that same vector. -/
theorem combined_query_average (tv iv : List ℚ) (ht : tv ≠ []) (hi : iv ≠ []) :
    queryVectorWithUploadedImage (some tv) (some iv) =
      some (elementwiseAverage tv iv) ∧
    ∀ v : List ℚ, combinedEmbedding v v = v := by
  refine ⟨?_, combined_self⟩
  simp [queryVectorWithUploadedImage, ht, hi, combined_eq_average]

/-- Witness for C8 on concrete two-dimensional vectors. -/
theorem combined_query_average_witness :
    ([(1 : ℚ), 2] ≠ []) ∧ ([(3 : ℚ), 5] ≠ []) ∧
    (queryVectorWithUploadedImage (some [(1 : ℚ), 2]) (some [(3 : ℚ), 5]) =
        some (elementwiseAverage [(1 : ℚ), 2] [(3 : ℚ), 5]) ∧
      ∀ v : List ℚ, combinedEmbedding v v = v) :=
  ⟨by simp, by simp,
    combined_query_average [(1 : ℚ), 2] [(3 : ℚ), 5] (by simp) (by simp)⟩

/-! ## Chunk id assignment (VectorStore.add_text_chunks, src/vector_store.py) -/

/-- Python truthiness of an optional embedding vector. -/
def vecTruthy : Option (List ℚ) → Bool
  | none => false
  | some v => !v.isEmpty

/-- The ids handed to the text collection by add_text_chunks: the loop
enumerates all chunks of the call, skips those whose embedding is falsy,
and names each kept chunk `text_<idx>` after its enumerate index.  The
chunk metadata (type α) plays no role. -/
def addTextChunksIds {α : Type} (embed : String → Option (List ℚ))
    (chunks : List (String × α)) : List String :=
  (chunks.enum.filter (fun p => vecTruthy (embed p.2.1))).map
    (fun p => "text_" ++ toString p.1)

/-- An embedding stub failing exactly on the content "a". -/
def failFirstEmbed : String → Option (List ℚ) :=
  fun s => if s = "a" then none else some [1]

/-- **C9 counterexample.**  Two chunks of which only the second embeds
successfully (n = 1 successful chunk): the assigned ids are [text_1], not
text_0 through text_{n-1} = [text_0] — the index comes from the position in
the batch, not from a counter of successful embeddings. -/
theorem chunk_ids_counterexample :
    addTextChunksIds failFirstEmbed [("a", 0), ("b", 0)] = ["text_1"] ∧
    (["text_1"] : List String) ≠ ["text_0"] := by
  refine ⟨rfl, by decide⟩

theorem addTextChunksIds_enumFrom {α : Type} (embed : String → Option (List ℚ)) :
    ∀ (chunks : List (String × α)) (n : Nat),
      (∀ c ∈ chunks, vecTruthy (embed c.1) = true) →
      ((chunks.enumFrom n).filter (fun p => vecTruthy (embed p.2.1))).map
          (fun p => "text_" ++ toString p.1) =
        (List.range' n chunks.length).map (fun i => "text_" ++ toString i) := by
  intro chunks
  induction chunks with
  | nil => intro n _; rfl
  | cons c cs ih =>
    intro n hall
    have hc : vecTruthy (embed c.1) = true := hall c (List.mem_cons_self c cs)
    have hcs : ∀ x ∈ cs, vecTruthy (embed x.1) = true :=
      fun x hx => hall x (List.mem_cons_of_mem c hx)
    simp only [List.enumFrom, List.filter, hc, List.map, List.length_cons,
      List.range'_succ]
    rw [ih (n + 1) hcs]

/-- **C9 amended.**  The ids depend only on each chunk's position within
the call: when every chunk of the batch embeds successfully the ids are
exactly text_0 ... text_{n-1}; consequently any two all-successful batches
of equal length receive identical (overlapping) ids, independent of what
the collection already contains. -/
theorem chunk_ids_amended {α β : Type} (embed : String → Option (List ℚ))
    (chunks : List (String × α)) (embed2 : String → Option (List ℚ))
    (chunks2 : List (String × β))
    (hall : ∀ c ∈ chunks, vecTruthy (embed c.1) = true)
    (hall2 : ∀ c ∈ chunks2, vecTruthy (embed2 c.1) = true)
    (hlen : chunks2.length = chunks.length) :
    addTextChunksIds embed chunks =
      (List.range chunks.length).map (fun i => "text_" ++ toString i) ∧
    addTextChunksIds embed2 chunks2 = addTextChunksIds embed chunks := by
  have key : addTextChunksIds embed chunks =
      (List.range chunks.length).map (fun i => "text_" ++ toString i) := by
    unfold addTextChunksIds
    rw [show chunks.enum = chunks.enumFrom 0 from rfl,
      addTextChunksIds_enumFrom embed chunks 0 hall, List.range_eq_range']
  have key2 : addTextChunksIds embed2 chunks2 =
      (List.range chunks2.length).map (fun i => "text_" ++ toString i) := by
    unfold addTextChunksIds
    rw [show chunks2.enum = chunks2.enumFrom 0 from rfl,
      addTextChunksIds_enumFrom embed2 chunks2 0 hall2, List.range_eq_range']
  exact ⟨key, by rw [key, key2, hlen]⟩

/-- Witness for C9 amended: two all-successful batches of length two. -/
theorem chunk_ids_amended_witness :
    (∀ c ∈ [("x", 0), ("y", 0)], vecTruthy ((fun _ => some [(1 : ℚ)]) (Prod.fst c)) = true) ∧
    (∀ c ∈ [("u", 1), ("v", 1)], vecTruthy ((fun _ => some [(2 : ℚ)]) (Prod.fst c)) = true) ∧
    (addTextChunksIds (fun _ => some [(1 : ℚ)]) [("x", 0), ("y", 0)] =
        (List.range ([("x", 0), ("y", 0)] : List (String × Nat)).length).map
          (fun i => "text_" ++ toString i) ∧
      addTextChunksIds (fun _ => some [(2 : ℚ)]) [("u", 1), ("v", 1)] =
        addTextChunksIds (fun _ => some [(1 : ℚ)]) [("x", 0), ("y", 0)]) := by
  have hall : ∀ c ∈ [("x", 0), ("y", 0)],
      vecTruthy ((fun _ => some [(1 : ℚ)]) (Prod.fst c)) = true := by
    intro c _
    rfl
  have hall2 : ∀ c ∈ [("u", 1), ("v", 1)],
      vecTruthy ((fun _ => some [(2 : ℚ)]) (Prod.fst c)) = true := by
    intro c _
    rfl
  exact ⟨hall, hall2,
    chunk_ids_amended (fun _ => some [(1 : ℚ)]) [("x", 0), ("y", 0)]
      (fun _ => some [(2 : ℚ)]) [("u", 1), ("v", 1)] hall hall2 rfl⟩

/-! ## Configuration attribute lookup (class Config, src/config.py, and
VectorStore.__init__, src/vector_store.py) -/

/-- The attribute names the Config class defines (src/config.py lines
48-90). -/
def configAttrNames : List String :=
  ["api_key_manager", "DATA_DIR", "CHROMA_DB_DIR", "TEXT_COLLECTION",
   "IMAGE_COLLECTION", "CHUNK_SIZE", "CHUNK_OVERLAP", "EMBEDDING_MODEL",
   "LLM_MODEL", "VISION_MODEL", "TEMPERATURE", "MAX_OUTPUT_TOKENS", "TOP_K",
   "IMAGE_QUALITY", "MAX_IMAGE_SIZE", "EMBEDDING_DIM", "ensure_directories"]

def configHasAttr (name : String) : Bool := configAttrNames.contains name

/-- VectorStore.__init__ up to its first statement: it reads
Config.CLIP_MODEL to load the embedding model; an undefined attribute
raises AttributeError before any of the remaining (external) set-up runs,
which is therefore not modelled further. -/
def vectorStoreInit : Except String Unit :=
  if configHasAttr "CLIP_MODEL" then Except.ok ()
  else Except.error "AttributeError: type object Config has no attribute CLIP_MODEL"

/-- **C10.**  Constructing the VectorStore always raises: Config defines
EMBEDDING_MODEL but never CLIP_MODEL, and the initializer reads
Config.CLIP_MODEL as its first action. -/
theorem vector_store_init_raises :
    vectorStoreInit =
      Except.error "AttributeError: type object Config has no attribute CLIP_MODEL" ∧
    configHasAttr "CLIP_MODEL" = false ∧
    configHasAttr "EMBEDDING_MODEL" = true := by
  refine ⟨rfl, by decide, by decide⟩
